import Mathlib

/-!
Verification development for the EteSync server storage core
(django_etesync/serializers.py): the chunk/revision/item data model, the
revision builder, the single-current-revision transition rule, the
collection bootstrap, and the base64 codec.

The database is embedded as a pure state record whose tables are ordered
lists (list position models auto-increment primary-key order).  Fallible
operations return Except; Django's transaction.atomic is modelled by the
commit wrapper, which keeps the original state on error (rollback).
-/

/-- Access levels of a collection membership (models.CollectionMember.AccessLevels). -/
inductive AccessLevel where
  | ADMIN
  | WRITE
  | READ
deriving DecidableEq

/-- A content-addressed chunk row (models.CollectionItemChunk): uid, owning item
and the bytes persisted to the blob store on creation. -/
structure Chunk where
  uid : String
  itemId : Nat
  content : List Nat
deriving DecidableEq

/-- A revision row (models.CollectionItemRevision).  The Python code writes
current = None to demote, so the flag is an Option Bool.  id models the
auto-increment primary key. -/
structure Revision where
  id : Nat
  uid : String
  meta : List Nat
  deleted : Bool
  current : Option Bool
  itemId : Nat
deriving DecidableEq

/-- A row of the revision-to-chunk join table (models.RevisionChunkRelation);
table order models insertion (primary-key) order. -/
structure RevisionChunkRelation where
  chunkUid : String
  revisionId : Nat
deriving DecidableEq

/-- An item row (models.CollectionItem); uid and encryptionKey are nullable
(the main item of a collection has both null). -/
structure Item where
  id : Nat
  uid : Option String
  encryptionKey : Option (List Nat)
  version : Nat
  collectionId : Option Nat
deriving DecidableEq

/-- A collection row (models.Collection); mainItem is assigned after the main
item is created, hence nullable. -/
structure Collection where
  id : Nat
  uid : String
  version : Nat
  owner : Nat
  mainItemId : Option Nat
deriving DecidableEq

/-- A membership row (models.CollectionMember) carrying the member's wrapped
encryption key. -/
structure CollectionMember where
  collectionId : Nat
  userId : Nat
  accessLevel : AccessLevel
  encryptionKey : List Nat
deriving DecidableEq

/-- The committed database state: one ordered list per table. -/
structure DB where
  collections : List Collection
  items : List Item
  revisions : List Revision
  chunks : List Chunk
  relations : List RevisionChunkRelation
  members : List CollectionMember
deriving DecidableEq

/-- The empty database. -/
def emptyDB : DB := ⟨[], [], [], [], [], []⟩

/-- The metadata of one revision as validated by
CollectionItemRevisionSerializer (uid, meta, deleted). -/
structure RevisionData where
  uid : String
  meta : List Nat
  deleted : Bool
deriving DecidableEq

/-- One element of the chunks list handed to process_revisions_for_item: a
tuple whose first slot is the uid, with inline bytes present exactly when the
Python tuple has length greater than one. -/
structure ChunkElem where
  uid : String
  content : Option (List Nat)
deriving DecidableEq

/-- The error outcomes of the storage core (spec section 7).
noCurrentRevision models the failure of the update path when the
current-revision lookup returns no row (the Python code then dereferences
None); duplicateChunk models the uid-uniqueness violation on chunk creation. -/
inductive DBErr where
  | chunkNotFound
  | duplicateChunk
  | noCurrentRevision
deriving DecidableEq

/-- Resolve one chunk-list element, mirroring the loop body of
process_revisions_for_item: inline bytes create a fresh chunk row, a bare uid
looks up the existing row.  Modelled from the spec: the uid-uniqueness
constraint enforced by models.py (absent from src) makes creation of an
existing uid fail with DuplicateChunkError instead of saving. -/
def resolveChunk (db : DB) (itemId : Nat) (c : ChunkElem) :
    Except DBErr (DB × Chunk) :=
  match c.content with
  | some content =>
      if db.chunks.any (fun ch => ch.uid = c.uid) then
        .error .duplicateChunk
      else
        let ch : Chunk := { uid := c.uid, itemId := itemId, content := content }
        .ok ({ db with chunks := db.chunks ++ [ch] }, ch)
  | none =>
      match db.chunks.find? (fun ch => ch.uid = c.uid) with
      | some ch => .ok (db, ch)
      | none => .error .chunkNotFound

/-- The chunk loop of process_revisions_for_item, accumulating the resolved
chunk objects in input order. -/
def resolveList (db : DB) (itemId : Nat) :
    List ChunkElem → Except DBErr (DB × List Chunk)
  | [] => .ok (db, [])
  | c :: rest =>
    match resolveChunk db itemId c with
    | .error e => .error e
    | .ok (db1, ch) =>
      match resolveList db1 itemId rest with
      | .error e => .error e
      | .ok (db2, objs) => .ok (db2, ch :: objs)

/-- process_revisions_for_item: resolve the chunk list, create the revision
row, then create one join row per resolved chunk in order.  Modelled from the
spec: models.py (absent from src) defaults the new revision's current flag to
true, which is what marks the freshly built revision live (spec section 4.3). -/
def process_revisions_for_item (db : DB) (itemId : Nat) (rd : RevisionData)
    (chunks : List ChunkElem) : Except DBErr DB :=
  match resolveList db itemId chunks with
  | .error e => .error e
  | .ok (db1, objs) =>
    let revision : Revision :=
      { id := db1.revisions.length, uid := rd.uid, meta := rd.meta,
        deleted := rd.deleted, current := some true, itemId := itemId }
    let db2 := { db1 with revisions := db1.revisions ++ [revision] }
    .ok { db2 with relations := db2.relations ++
            objs.map (fun ch => { chunkUid := ch.uid, revisionId := revision.id }) }

/-- Django transaction.atomic at the call boundary: a successful body commits
its state, a failing body rolls back to the original state. -/
def commit (db : DB) (r : Except DBErr DB) : DB :=
  match r with
  | .ok db1 => db1
  | .error _ => db

/-- The first revision row of an item with current = true, in primary-key
order (instance.revisions.filter(current=True).first()). -/
def firstCurrent (db : DB) (itemId : Nat) : Option Revision :=
  db.revisions.find? (fun r => decide (r.itemId = itemId ∧ r.current = some true))

/-- Set current = None on the revision row with the given primary key
(current_revision.current = None; current_revision.save()). -/
def demoteRev (db : DB) (revId : Nat) : DB :=
  let revs := db.revisions.map
    (fun r => if r.id = revId then { r with current := none } else r)
  { db with revisions := revs }

/-- The item fields validated by CollectionItemSerializer (the collection is
supplied by the caller of save). -/
structure ItemData where
  uid : Option String
  encryptionKey : Option (List Nat)
  version : Nat
  collectionId : Option Nat
deriving DecidableEq

/-- CollectionItemSerializer.create: save a fresh item row, then build its
first revision, all in one transaction. -/
def CollectionItemSerializer.create (db : DB) (d : ItemData) (rd : RevisionData)
    (chunks : List ChunkElem) : Except DBErr DB :=
  let inst : Item := { id := db.items.length, uid := d.uid,
                       encryptionKey := d.encryptionKey, version := d.version,
                       collectionId := d.collectionId }
  let db1 := { db with items := db.items ++ [inst] }
  process_revisions_for_item db1 inst.id rd chunks

/-- CollectionItemSerializer.update (supersede): look up the current revision
under lock, demote it, then build the new revision, all in one transaction.
When no current revision exists the Python code dereferences None and the
transaction fails; the embedding reports that outcome as noCurrentRevision. -/
def CollectionItemSerializer.update (db : DB) (itemId : Nat) (rd : RevisionData)
    (chunks : List ChunkElem) : Except DBErr DB :=
  match firstCurrent db itemId with
  | none => .error .noCurrentRevision
  | some cur => process_revisions_for_item (demoteRev db cur.id) itemId rd chunks

/-- The collection fields validated by CollectionSerializer together with the
owner passed to save. -/
structure CollectionData where
  uid : String
  version : Nat
  owner : Nat
deriving DecidableEq

/-- CollectionSerializer.create: in one transaction, save the collection row,
create the main item (uid and encryptionKey null, version copied from the
collection), build the main item's first revision, persist the mainItem
assignment, and create the owner's ADMIN membership row carrying the supplied
encryption key. -/
def CollectionSerializer.create (db : DB) (cd : CollectionData)
    (encryptionKey : List Nat) (rd : RevisionData) (chunks : List ChunkElem) :
    Except DBErr DB :=
  let cid := db.collections.length
  let inst : Collection := { id := cid, uid := cd.uid, version := cd.version,
                             owner := cd.owner, mainItemId := none }
  let db1 := { db with collections := db.collections ++ [inst] }
  let mainItem : Item := { id := db1.items.length, uid := none,
                           encryptionKey := none, version := inst.version,
                           collectionId := some cid }
  let db2 := { db1 with items := db1.items ++ [mainItem] }
  match process_revisions_for_item db2 mainItem.id rd chunks with
  | .error e => .error e
  | .ok db3 =>
    let colls := db3.collections.map
      (fun c => if c.id = cid then { c with mainItemId := some mainItem.id } else c)
    let db4 := { db3 with collections := colls }
    let member : CollectionMember :=
      { collectionId := cid, userId := cd.owner, accessLevel := .ADMIN,
        encryptionKey := encryptionKey }
    .ok { db4 with members := db4.members ++ [member] }

/-- The revision rows belonging to a collection through its items, in
primary-key order (the queryset filter(item__collection=obj)). -/
def collectionRevisions (db : DB) (collId : Nat) : List Revision :=
  db.revisions.filter (fun r =>
    db.items.any (fun it => it.id == r.itemId && it.collectionId == some collId))

/-- CollectionSerializer.get_ctag: the uid of the last revision row of the
collection, or none when there is no revision.  Modelled from the spec: with
models.py absent, the queryset last() is taken in primary-key (creation)
order, so the last row is the most recently created revision. -/
def CollectionSerializer.get_ctag (db : DB) (collId : Nat) : Option String :=
  match (collectionRevisions db collId).getLast? with
  | none => none
  | some r => some r.uid

/-- The URL-safe base64 alphabet used by base64.urlsafe_b64encode. -/
def b64alphabet : List Char :=
  "ABCDEFGHIJKLMNOPQRSTUVWXYZabcdefghijklmnopqrstuvwxyz0123456789-_".toList

/-- The alphabet character of a sextet value. -/
def sextetToChar (s : Nat) : Char :=
  b64alphabet.getD s 'A'

/-- The sextet value of an alphabet character, none for a character outside
the alphabet (such characters make the Python decoder fail). -/
def charToSextet (c : Char) : Option Nat :=
  b64alphabet.findIdx? (fun a => a = c)

/-- The sextet stream of a byte stream: each full group of three bytes yields
four sextets, a trailing group of one or two bytes yields two or three. -/
def encodeSextets : List Nat → List Nat
  | [] => []
  | [a] => [a / 4, a % 4 * 16]
  | [a, b] => [a / 4, a % 4 * 16 + b / 16, b % 16 * 4]
  | a :: b :: c :: rest =>
      a / 4 :: (a % 4 * 16 + b / 16) :: (b % 16 * 4 + c / 64) :: c % 64 ::
        encodeSextets rest

/-- The number of padding characters base64 appends for a byte count. -/
def b64padLen (n : Nat) : Nat :=
  match n % 3 with
  | 0 => 0
  | 1 => 2
  | _ => 1

/-- base64.urlsafe_b64encode: alphabet characters for the sextet stream plus
the padding characters. -/
def urlsafe_b64encode (value : List Nat) : List Char :=
  (encodeSextets value).map sextetToChar ++ List.replicate (b64padLen value.length) '='

/-- Drop leading characters equal to '='. -/
def dropEqPrefix (l : List Char) : List Char :=
  l.dropWhile (fun c => c = '=')

/-- Python str.strip applied with '=': remove '=' from both ends. -/
def stripEq (l : List Char) : List Char :=
  ((dropEqPrefix l).reverse.dropWhile (fun c => c = '=')).reverse

/-- b64encode: URL-safe base64 with the padding stripped. -/
def b64encode (value : List Nat) : List Char :=
  stripEq (urlsafe_b64encode value)

/-- Decode a padded base64 character stream group by group: four alphabet
characters yield three bytes; a final group may end in one or two padding
characters, yielding two bytes or one.  none models the Python decoder
raising on malformed input. -/
def decodeGroups : List Char → Option (List Nat)
  | [] => some []
  | c0 :: c1 :: c2 :: c3 :: rest => do
      let s0 ← charToSextet c0
      let s1 ← charToSextet c1
      if c2 = '=' then
        if c3 = '=' ∧ rest = [] then
          some [s0 * 4 + s1 / 16]
        else
          none
      else do
        let s2 ← charToSextet c2
        if c3 = '=' then
          if rest = [] then
            some [s0 * 4 + s1 / 16, s1 % 16 * 16 + s2 / 4]
          else
            none
        else do
          let s3 ← charToSextet c3
          let tail ← decodeGroups rest
          some ((s0 * 4 + s1 / 16) :: (s1 % 16 * 16 + s2 / 4) :: (s2 % 4 * 64 + s3) :: tail)
  | _ => none

/-- b64decode: re-pad to a multiple of four characters with '=' and decode
URL-safe base64. -/
def b64decode (data : List Char) : Option (List Nat) :=
  decodeGroups (data ++ List.replicate ((4 - data.length % 4) % 4) '=')

/-- ChunksField.to_internal_value: reads data[0] and data[1] unconditionally,
so an element with fewer than two slots fails (Python IndexError), as does
malformed base64 in the second slot. -/
def ChunksField.to_internal_value (data : List String) : Option (String × List Nat) := do
  let d0 ← data[0]?
  let d1 ← data[1]?
  let bytes ← b64decode d1.toList
  some (d0, bytes)

/-- One item-level write operation: create a fresh item with its first
revision, or supersede the current revision of an existing item. -/
inductive Op where
  | createItem (d : ItemData) (rd : RevisionData) (chunks : List ChunkElem)
  | updateItem (itemId : Nat) (rd : RevisionData) (chunks : List ChunkElem)

/-- Apply one operation through its serializer entry point. -/
def applyOp (db : DB) : Op → Except DBErr DB
  | .createItem d rd chunks => CollectionItemSerializer.create db d rd chunks
  | .updateItem itemId rd chunks => CollectionItemSerializer.update db itemId rd chunks

/-- Run a sequence of operations that must each succeed and commit; none as
soon as one fails. -/
def runOps : DB → List Op → Option DB
  | db, [] => some db
  | db, op :: rest =>
    match applyOp db op with
    | .error _ => none
    | .ok db1 => runOps db1 rest

/-- The number of revision rows of an item carrying current = true. -/
def currentCount (db : DB) (itemId : Nat) : Nat :=
  db.revisions.countP (fun r => decide (r.itemId = itemId ∧ r.current = some true))

/-- Revision primary keys are exactly the row positions, as produced by an
auto-increment key on an append-only table. -/
def RevIdsOk (db : DB) : Prop :=
  db.revisions.map Revision.id = List.range db.revisions.length

/-- Item primary keys are exactly the row positions. -/
def ItemIdsOk (db : DB) : Prop :=
  db.items.map Item.id = List.range db.items.length

/-- Every revision row points at an existing item row. -/
def RevItemsOk (db : DB) : Prop :=
  ∀ r ∈ db.revisions, r.itemId < db.items.length

/-- The reachable-state invariant of the item revision chain: well-formed
keys and exactly one current revision per item. -/
def ChainInv (db : DB) : Prop :=
  RevIdsOk db ∧ ItemIdsOk db ∧ RevItemsOk db ∧
    ∀ it ∈ db.items, currentCount db it.id = 1

/-- The inputs of one supersede transaction in the concurrency model. -/
structure ThreadProg where
  rd : RevisionData
  chunks : List ChunkElem
deriving DecidableEq

/-- The control point of one supersede transaction: before the locking read,
inside the critical section holding the lock and the current revision's key,
after the writes, or committed. -/
inductive Phase where
  | ready
  | inCrit (curId : Nat)
  | written
  | done
deriving DecidableEq

/-- The shared state of two concurrent supersede transactions on one item.
Modelled from the spec (section 5): the row lock taken by select_for_update
is scoped to the transaction, blocks the other transaction's locking read
while held, and the blocked reader observes the committed updated state once
it acquires the lock. -/
structure Sys where
  db : DB
  lockFree : Bool
  ph0 : Phase
  ph1 : Phase
deriving DecidableEq

/-- One step of a single supersede transaction: the locking read of the
current revision, then the demote-and-build writes under the lock, then the
commit releasing the lock.  none when the transaction cannot step (blocked on
the lock, no current revision to dereference, failing chunk resolution) or is
finished. -/
def tstep (itemId : Nat) (p : ThreadProg) (db : DB) (lockFree : Bool) :
    Phase → Option (DB × Bool × Phase)
  | .ready =>
    if lockFree then
      match firstCurrent db itemId with
      | some cur => some (db, false, .inCrit cur.id)
      | none => none
    else
      none
  | .inCrit curId =>
    match process_revisions_for_item (demoteRev db curId) itemId p.rd p.chunks with
    | .ok db1 => some (db1, false, .written)
    | .error _ => none
  | .written => some (db, true, .done)
  | .done => none

/-- One step of the two-transaction system, picking the thread named by the
scheduler. -/
def sstep (itemId : Nat) (p0 p1 : ThreadProg) (s : Sys) : Bool → Option Sys
  | false =>
    match tstep itemId p0 s.db s.lockFree s.ph0 with
    | some (db1, lf, ph) => some { s with db := db1, lockFree := lf, ph0 := ph }
    | none => none
  | true =>
    match tstep itemId p1 s.db s.lockFree s.ph1 with
    | some (db1, lf, ph) => some { s with db := db1, lockFree := lf, ph1 := ph }
    | none => none

/-- Run the two-transaction system under a schedule; none when the scheduled
thread cannot step. -/
def runSched (itemId : Nat) (p0 p1 : ThreadProg) : Sys → List Bool → Option Sys
  | s, [] => some s
  | s, b :: rest =>
    match sstep itemId p0 p1 s b with
    | some s1 => runSched itemId p0 p1 s1 rest
    | none => none

/-- The initial system state: both transactions before their locking read. -/
def initSys (db : DB) : Sys := { db := db, lockFree := true, ph0 := .ready, ph1 := .ready }

/-- The revision row a successful process_revisions_for_item creates. -/
def builtRevision (db : DB) (itemId : Nat) (rd : RevisionData) : Revision :=
  { id := db.revisions.length, uid := rd.uid, meta := rd.meta,
    deleted := rd.deleted, current := some true, itemId := itemId }

/-- C6 counterexample input: a database already holding chunk "X". -/
def dupDb : DB :=
  { emptyDB with chunks := [{ uid := "X", itemId := 0, content := [1] }] }

/-- C6 counterexample chunk list: a dangling reference before the duplicate
inline element. -/
def dupChunks : List ChunkElem :=
  [{ uid := "Y", content := none }, { uid := "X", content := some [2] }]

/-- The database produced by the witness run of the collection bootstrap. -/
def bootDB : DB :=
  { collections := [{ id := 0, uid := "col", version := 2, owner := 7,
                      mainItemId := some 0 }],
    items := [{ id := 0, uid := none, encryptionKey := none, version := 2,
                collectionId := some 0 }],
    revisions := [{ id := 0, uid := "r1", meta := [5], deleted := false,
                    current := some true, itemId := 0 }],
    chunks := [{ uid := "c1", itemId := 0, content := [3] }],
    relations := [{ chunkUid := "c1", revisionId := 0 }],
    members := [{ collectionId := 0, userId := 7,
                  accessLevel := AccessLevel.ADMIN, encryptionKey := [9] }] }

/-- The database reached by the witness run of C1: one create then one
supersede. -/
def c1DB : DB :=
  { collections := [],
    items := [{ id := 0, uid := some "i0", encryptionKey := none, version := 1,
                collectionId := none }],
    revisions := [{ id := 0, uid := "r1", meta := [], deleted := false,
                    current := none, itemId := 0 },
                  { id := 1, uid := "r2", meta := [], deleted := false,
                    current := some true, itemId := 0 }],
    chunks := [], relations := [], members := [] }

/-- The operation list of the C1 witness run. -/
def c1Ops : List Op :=
  [Op.createItem ⟨some "i0", none, 1, none⟩ ⟨"r1", [], false⟩ [],
   Op.updateItem 0 ⟨"r2", [], false⟩ []]

/-- The database of the C10 witness: one collection, its item, and two
revisions. -/
def ctagDB : DB :=
  { collections := [{ id := 0, uid := "col", version := 1, owner := 7,
                      mainItemId := some 0 }],
    items := [{ id := 0, uid := none, encryptionKey := none, version := 1,
                collectionId := some 0 }],
    revisions := [{ id := 0, uid := "r1", meta := [], deleted := false,
                    current := none, itemId := 0 },
                  { id := 1, uid := "r2", meta := [], deleted := false,
                    current := some true, itemId := 0 }],
    chunks := [], relations := [], members := [] }

/-- The initial database of the C2 witness: one item with one current
revision. -/
def raceDB : DB :=
  { collections := [], items := [⟨0, some "i0", none, 1, none⟩],
    revisions := [⟨0, "r1", [], false, some true, 0⟩],
    chunks := [], relations := [], members := [] }

/-- The final system state of the C2 witness run. -/
def raceFinal : Sys :=
  { db := { collections := [], items := [⟨0, some "i0", none, 1, none⟩],
            revisions := [⟨0, "r1", [], false, none, 0⟩,
                          ⟨1, "a1", [], false, none, 0⟩,
                          ⟨2, "b1", [], false, some true, 0⟩],
            chunks := [], relations := [], members := [] },
    lockFree := true, ph0 := .done, ph1 := .done }

/-- No character of the base64 alphabet is the padding character. -/
theorem b64alphabet_ne_pad : ∀ c ∈ b64alphabet, c ≠ '=' := by decide

/-- sextetToChar never produces the padding character. -/
theorem sextetToChar_ne_pad (s : Nat) : sextetToChar s ≠ '=' := by
  unfold sextetToChar
  rw [List.getD_eq_getElem?_getD]
  cases h : b64alphabet[s]? with
  | none => simp
  | some c =>
    have hc : c ∈ b64alphabet := List.getElem?_mem h
    simpa using b64alphabet_ne_pad c hc

/-- charToSextet inverts sextetToChar on sextet values. -/
theorem charToSextet_sextetToChar : ∀ s, s < 64 → charToSextet (sextetToChar s) = some s := by
  decide

/-- Dropping padding characters skips a padding prefix. -/
theorem dropWhile_pad_replicate (k : Nat) (l : List Char) :
    List.dropWhile (fun c => c = '=') (List.replicate k '=' ++ l) =
      List.dropWhile (fun c => c = '=') l := by
  induction k with
  | zero => simp
  | succ n ih => simp [List.replicate_succ, List.dropWhile_cons, ih]

/-- Dropping padding characters is the identity on padding-free text. -/
theorem dropWhile_pad_of_ne (l : List Char) (h : ∀ c ∈ l, c ≠ '=') :
    List.dropWhile (fun c => c = '=') l = l := by
  cases l with
  | nil => rfl
  | cons x t =>
    have hx : x ≠ '=' := h x (by simp)
    simp [List.dropWhile_cons, hx]

/-- Stripping '=' from padding-free text followed by padding returns the text. -/
theorem stripEq_append_replicate (xs : List Char) (k : Nat)
    (h : ∀ c ∈ xs, c ≠ '=') :
    stripEq (xs ++ List.replicate k '=') = xs := by
  unfold stripEq dropEqPrefix
  cases xs with
  | nil =>
    have h1 : List.dropWhile (fun c => c = '=') (List.replicate k '=' ++ ([] : List Char)) =
        List.dropWhile (fun c => c = '=') ([] : List Char) := dropWhile_pad_replicate k []
    simp at h1
    simp [h1]
  | cons x t =>
    have hx : x ≠ '=' := h x (by simp)
    have h1 : List.dropWhile (fun c => c = '=') ((x :: t) ++ List.replicate k '=') =
        (x :: t) ++ List.replicate k '=' := by
      rw [List.cons_append, List.dropWhile_cons]
      simp [hx]
    rw [h1, List.reverse_append, List.reverse_replicate, dropWhile_pad_replicate]
    rw [dropWhile_pad_of_ne _ (by intro c hc; exact h c (List.mem_reverse.mp hc)),
        List.reverse_reverse]

/-- The stripped encoding is exactly the alphabet image of the sextet stream. -/
theorem b64encode_eq_map (b : List Nat) :
    b64encode b = (encodeSextets b).map sextetToChar := by
  unfold b64encode urlsafe_b64encode
  refine stripEq_append_replicate _ _ ?_
  intro c hc
  obtain ⟨s, _, rfl⟩ := List.mem_map.mp hc
  exact sextetToChar_ne_pad s

/-- Decoding a full group of four alphabet characters reassembles three bytes
and recurses. -/
theorem decodeGroups_cons4 (s0 s1 s2 s3 : Nat) (h0 : s0 < 64) (h1 : s1 < 64)
    (h2 : s2 < 64) (h3 : s3 < 64) (rest : List Char) :
    decodeGroups (sextetToChar s0 :: sextetToChar s1 :: sextetToChar s2 ::
        sextetToChar s3 :: rest) =
      (decodeGroups rest).bind (fun tail =>
        some ((s0 * 4 + s1 / 16) :: (s1 % 16 * 16 + s2 / 4) ::
          (s2 % 4 * 64 + s3) :: tail)) := by
  simp [decodeGroups, charToSextet_sextetToChar _ h0,
    charToSextet_sextetToChar _ h1, charToSextet_sextetToChar _ h2,
    charToSextet_sextetToChar _ h3, sextetToChar_ne_pad s2, sextetToChar_ne_pad s3]

/-- Decoding a final group with two padding characters yields one byte. -/
theorem decodeGroups_pad2 (s0 s1 : Nat) (h0 : s0 < 64) (h1 : s1 < 64) :
    decodeGroups [sextetToChar s0, sextetToChar s1, '=', '='] =
      some [s0 * 4 + s1 / 16] := by
  simp [decodeGroups, charToSextet_sextetToChar _ h0,
    charToSextet_sextetToChar _ h1]

/-- Decoding a final group with one padding character yields two bytes. -/
theorem decodeGroups_pad1 (s0 s1 s2 : Nat) (h0 : s0 < 64) (h1 : s1 < 64)
    (h2 : s2 < 64) :
    decodeGroups [sextetToChar s0, sextetToChar s1, sextetToChar s2, '='] =
      some [s0 * 4 + s1 / 16, s1 % 16 * 16 + s2 / 4] := by
  simp [decodeGroups, charToSextet_sextetToChar _ h0,
    charToSextet_sextetToChar _ h1, charToSextet_sextetToChar _ h2,
    sextetToChar_ne_pad s2]

/-- Decoding the stripped encoding of a byte stream recovers the bytes. -/
theorem b64decode_map_encodeSextets :
    ∀ b : List Nat, (∀ x ∈ b, x < 256) →
      b64decode ((encodeSextets b).map sextetToChar) = some b
  | [], _ => by simp [b64decode, encodeSextets, decodeGroups]
  | [a], h => by
      have ha : a < 256 := h a (by simp)
      have hpad : b64decode ((encodeSextets [a]).map sextetToChar) =
          decodeGroups [sextetToChar (a / 4), sextetToChar (a % 4 * 16), '=', '='] := by
        simp [b64decode, encodeSextets, List.replicate]
      rw [hpad, decodeGroups_pad2 _ _ (by omega) (by omega)]
      have : a / 4 * 4 + a % 4 * 16 / 16 = a := by omega
      rw [this]
  | [a, b], h => by
      have ha : a < 256 := h a (by simp)
      have hb : b < 256 := h b (by simp)
      have hpad : b64decode ((encodeSextets [a, b]).map sextetToChar) =
          decodeGroups [sextetToChar (a / 4), sextetToChar (a % 4 * 16 + b / 16),
            sextetToChar (b % 16 * 4), '='] := by
        simp [b64decode, encodeSextets, List.replicate]
      rw [hpad, decodeGroups_pad1 _ _ _ (by omega) (by omega) (by omega)]
      have e1 : a / 4 * 4 + (a % 4 * 16 + b / 16) / 16 = a := by omega
      have e2 : (a % 4 * 16 + b / 16) % 16 * 16 + b % 16 * 4 / 4 = b := by omega
      rw [e1, e2]
  | a :: b :: c :: rest, h => by
      have ha : a < 256 := h a (by simp)
      have hb : b < 256 := h b (by simp)
      have hc : c < 256 := h c (by simp)
      have ih := b64decode_map_encodeSextets rest (fun x hx => h x (by simp [hx]))
      have hshape : b64decode ((encodeSextets (a :: b :: c :: rest)).map sextetToChar) =
          decodeGroups (sextetToChar (a / 4) :: sextetToChar (a % 4 * 16 + b / 16) ::
            sextetToChar (b % 16 * 4 + c / 64) :: sextetToChar (c % 64) ::
            ((encodeSextets rest).map sextetToChar ++
              List.replicate ((4 - ((encodeSextets rest).map sextetToChar).length % 4) % 4) '=')) := by
        simp only [encodeSextets, List.map, b64decode, List.length_cons, List.cons_append]
        have hm : (((encodeSextets rest).map sextetToChar).length + 1 + 1 + 1 + 1) % 4 =
            ((encodeSextets rest).map sextetToChar).length % 4 := by omega
        rw [hm]
      rw [hshape, decodeGroups_cons4 _ _ _ _ (by omega) (by omega) (by omega) (by omega)]
      have hrec : decodeGroups ((encodeSextets rest).map sextetToChar ++
          List.replicate ((4 - ((encodeSextets rest).map sextetToChar).length % 4) % 4) '=') =
          some rest := ih
      rw [hrec, Option.some_bind]
      have e1 : a / 4 * 4 + (a % 4 * 16 + b / 16) / 16 = a := by omega
      have e2 : (a % 4 * 16 + b / 16) % 16 * 16 + (b % 16 * 4 + c / 64) / 4 = b := by omega
      have e3 : (b % 16 * 4 + c / 64) % 4 * 64 + c % 64 = c := by omega
      rw [e1, e2, e3]

/-- C8: for every byte string b, b64decode (b64encode b) recovers b, and the
text produced by b64encode contains no '=' padding character. -/
theorem C8_b64_roundtrip_no_padding (b : List Nat) (h : ∀ x ∈ b, x < 256) :
    b64decode (b64encode b) = some b ∧ '=' ∉ b64encode b := by
  constructor
  · rw [b64encode_eq_map]
    exact b64decode_map_encodeSextets b h
  · rw [b64encode_eq_map]
    intro hmem
    obtain ⟨s, _, hs⟩ := List.mem_map.mp hmem
    exact sextetToChar_ne_pad s hs

/-- Witness for C8 at the byte string of "hello". -/
theorem C8_b64_roundtrip_no_padding_witness :
    (∀ x ∈ [104, 101, 108, 108, 111], x < 256) ∧
      (b64decode (b64encode [104, 101, 108, 108, 111]) =
          some [104, 101, 108, 108, 111] ∧
        '=' ∉ b64encode [104, 101, 108, 108, 111]) :=
  ⟨by decide, C8_b64_roundtrip_no_padding [104, 101, 108, 108, 111] (by decide)⟩

/-- C9: the chunk-list deserializer fails on the reference-only one-element
shape (the Python code indexes data[1] unconditionally), while the
two-element shape is accepted and decoded. -/
theorem C9_reference_shape_rejected :
    ChunksField.to_internal_value ["c1"] = none ∧
      ChunksField.to_internal_value ["c1", "aGVsbG8"] =
        some ("c1", [104, 101, 108, 108, 111]) := by
  constructor
  · rfl
  · rfl

/-- A successful resolveChunk only appends chunk rows, leaves every other
table unchanged, and returns a chunk carrying the element's uid. -/
theorem resolveChunk_spec (db : DB) (itemId : Nat) (c : ChunkElem) (db' : DB)
    (ch : Chunk) (h : resolveChunk db itemId c = .ok (db', ch)) :
    (∃ new, db'.chunks = db.chunks ++ new) ∧
      db'.revisions = db.revisions ∧ db'.items = db.items ∧
      db'.collections = db.collections ∧ db'.relations = db.relations ∧
      db'.members = db.members ∧ ch.uid = c.uid := by
  unfold resolveChunk at h
  split at h
  next content heq =>
    split at h
    · exact absurd h (by simp)
    · injection h with h1
      injection h1 with hdb hch
      subst hdb
      subst hch
      refine ⟨⟨_, rfl⟩, rfl, rfl, rfl, rfl, rfl, rfl⟩
  next heq =>
    split at h
    next ch0 hfind =>
      injection h with h1
      injection h1 with hdb hch
      subst hdb
      subst hch
      have := List.find?_some hfind
      simp only [decide_eq_true_eq] at this
      exact ⟨⟨[], by simp⟩, rfl, rfl, rfl, rfl, rfl, this⟩
    next => exact absurd h (by simp)

/-- A successful resolveList only appends chunk rows, leaves every other
table unchanged, and returns the chunks of the input uids in input order. -/
theorem resolveList_spec :
    ∀ (cs : List ChunkElem) (db : DB) (itemId : Nat) (db' : DB) (objs : List Chunk),
      resolveList db itemId cs = .ok (db', objs) →
      (∃ new, db'.chunks = db.chunks ++ new) ∧
        db'.revisions = db.revisions ∧ db'.items = db.items ∧
        db'.collections = db.collections ∧ db'.relations = db.relations ∧
        db'.members = db.members ∧ objs.map Chunk.uid = cs.map ChunkElem.uid
  | [], db, itemId, db', objs, h => by
      unfold resolveList at h
      injection h with h1
      injection h1 with hdb hobjs
      subst hdb
      subst hobjs
      exact ⟨⟨[], by simp⟩, rfl, rfl, rfl, rfl, rfl, rfl⟩
  | c :: rest, db, itemId, db', objs, h => by
      unfold resolveList at h
      cases h1 : resolveChunk db itemId c with
      | error e => rw [h1] at h; exact absurd h (by simp)
      | ok p =>
        obtain ⟨db1, ch⟩ := p
        rw [h1] at h
        dsimp only at h
        cases h2 : resolveList db1 itemId rest with
        | error e =>
            rw [h2] at h
            exact absurd h (by simp)
        | ok q =>
          obtain ⟨db2, objs2⟩ := q
          rw [h2] at h
          dsimp only at h
          injection h with h3
          injection h3 with hdb hobjs
          subst hdb
          subst hobjs
          obtain ⟨⟨n1, hc1⟩, hr1, hi1, hco1, hrel1, hm1, hu1⟩ :=
            resolveChunk_spec db itemId c db1 ch h1
          obtain ⟨⟨n2, hc2⟩, hr2, hi2, hco2, hrel2, hm2, hu2⟩ :=
            resolveList_spec rest db1 itemId db2 objs2 h2
          refine ⟨⟨n1 ++ n2, by rw [hc2, hc1, List.append_assoc]⟩,
            hr2.trans hr1, hi2.trans hi1, hco2.trans hco1,
            hrel2.trans hrel1, hm2.trans hm1, ?_⟩
          simp [hu1, hu2]

/-- A successful process_revisions_for_item appends exactly one revision row
(current = true), the join rows of the input uids in input order, and some
chunk rows; every other table is unchanged. -/
theorem process_spec (db : DB) (itemId : Nat) (rd : RevisionData)
    (chunks : List ChunkElem) (db' : DB)
    (h : process_revisions_for_item db itemId rd chunks = .ok db') :
    db'.revisions = db.revisions ++ [builtRevision db itemId rd] ∧
      db'.relations = db.relations ++ (chunks.map ChunkElem.uid).map
        (fun u => { chunkUid := u, revisionId := db.revisions.length }) ∧
      (∃ new, db'.chunks = db.chunks ++ new) ∧
      db'.items = db.items ∧ db'.collections = db.collections ∧
      db'.members = db.members := by
  unfold process_revisions_for_item at h
  cases h1 : resolveList db itemId chunks with
  | error e =>
      rw [h1] at h
      exact absurd h (by simp)
  | ok p =>
      obtain ⟨db1, objs⟩ := p
      rw [h1] at h
      dsimp only at h
      injection h with h2
      obtain ⟨⟨new, hc⟩, hr, hi, hco, hrel, hm, hu⟩ :=
        resolveList_spec chunks db itemId db1 objs h1
      subst h2
      refine ⟨by simp [hr, builtRevision], ?_, ⟨new, by simp [hc]⟩,
        by simp [hi], by simp [hco], by simp [hm]⟩
      simp only [hrel, hr, ← hu, List.map_map]
      rfl

/-- C7: for every ordered chunk list, a successful process_revisions_for_item
creates join rows that associate the new revision to the chunk uids in
exactly the input order. -/
theorem C7_chunk_order (db : DB) (itemId : Nat) (rd : RevisionData)
    (chunks : List ChunkElem) (db' : DB)
    (hfresh : ∀ rel ∈ db.relations, rel.revisionId ≠ db.revisions.length)
    (h : process_revisions_for_item db itemId rd chunks = .ok db') :
    (db'.relations.filter
        (fun rel => rel.revisionId = db.revisions.length)).map
      RevisionChunkRelation.chunkUid = chunks.map ChunkElem.uid := by
  obtain ⟨hrev, hrel, _, _, _, _⟩ := process_spec db itemId rd chunks db' h
  rw [hrel, List.filter_append]
  have h1 : db.relations.filter
      (fun rel => decide (rel.revisionId = db.revisions.length)) = [] := by
    rw [List.filter_eq_nil_iff]
    intro a ha
    simp [hfresh a ha]
  have h2 : ((chunks.map ChunkElem.uid).map
      (fun u => ({ chunkUid := u, revisionId := db.revisions.length } :
        RevisionChunkRelation))).filter
        (fun rel => decide (rel.revisionId = db.revisions.length)) =
      (chunks.map ChunkElem.uid).map
        (fun u => ({ chunkUid := u, revisionId := db.revisions.length } :
          RevisionChunkRelation)) := by
    rw [List.filter_eq_self]
    intro a ha
    obtain ⟨u, _, rfl⟩ := List.mem_map.mp ha
    simp
  rw [h1, h2, List.nil_append, List.map_map]
  simp [Function.comp]

/-- Witness for C7: one new chunk then a reference to it, on a database
holding one existing chunk. -/
theorem C7_chunk_order_witness :
    (∀ rel ∈ ([] : List RevisionChunkRelation), rel.revisionId ≠ 0) ∧
      process_revisions_for_item
          { emptyDB with chunks := [{ uid := "c0", itemId := 0, content := [1] }] }
          0 { uid := "r1", meta := [2], deleted := false }
          [{ uid := "c1", content := some [3] }, { uid := "c0", content := none }] =
        .ok { collections := [], items := [],
              revisions := [{ id := 0, uid := "r1", meta := [2], deleted := false,
                              current := some true, itemId := 0 }],
              chunks := [{ uid := "c0", itemId := 0, content := [1] },
                         { uid := "c1", itemId := 0, content := [3] }],
              relations := [{ chunkUid := "c1", revisionId := 0 },
                            { chunkUid := "c0", revisionId := 0 }],
              members := [] } ∧
      ((({ collections := [], items := [],
           revisions := [{ id := 0, uid := "r1", meta := [2], deleted := false,
                           current := some true, itemId := 0 }],
           chunks := [{ uid := "c0", itemId := 0, content := [1] },
                      { uid := "c1", itemId := 0, content := [3] }],
           relations := [{ chunkUid := "c1", revisionId := 0 },
                         { chunkUid := "c0", revisionId := 0 }],
           members := [] } : DB).relations.filter
          (fun rel => rel.revisionId = 0)).map RevisionChunkRelation.chunkUid =
        ["c1", "c0"]) :=
  ⟨by decide, by rfl,
    C7_chunk_order
      { emptyDB with chunks := [{ uid := "c0", itemId := 0, content := [1] }] }
      0 { uid := "r1", meta := [2], deleted := false }
      [{ uid := "c1", content := some [3] }, { uid := "c0", content := none }]
      _ (by decide) (by rfl)⟩

/-- C3: invoking supersede on an item that has no revision with current =
true fails with the no-current-revision error and commits no change to the
stored state. -/
theorem C3_supersede_no_current (db : DB) (itemId : Nat) (rd : RevisionData)
    (chunks : List ChunkElem)
    (h : ∀ r ∈ db.revisions, ¬(r.itemId = itemId ∧ r.current = some true)) :
    CollectionItemSerializer.update db itemId rd chunks =
        .error .noCurrentRevision ∧
      commit db (CollectionItemSerializer.update db itemId rd chunks) = db := by
  have hfc : firstCurrent db itemId = none := by
    rw [firstCurrent, List.find?_eq_none]
    intro r hr
    simp [h r hr]
  constructor
  · rw [CollectionItemSerializer.update, hfc]
  · rw [CollectionItemSerializer.update, hfc]
    rfl

/-- Witness for C3: an item with one demoted revision and no current one. -/
theorem C3_supersede_no_current_witness :
    (∀ r ∈ ({ emptyDB with
          items := [{ id := 0, uid := some "i0", encryptionKey := none,
                      version := 1, collectionId := none }],
          revisions := [{ id := 0, uid := "r0", meta := [], deleted := false,
                          current := none, itemId := 0 }] } : DB).revisions,
        ¬(r.itemId = 0 ∧ r.current = some true)) ∧
      CollectionItemSerializer.update
          { emptyDB with
            items := [{ id := 0, uid := some "i0", encryptionKey := none,
                        version := 1, collectionId := none }],
            revisions := [{ id := 0, uid := "r0", meta := [], deleted := false,
                            current := none, itemId := 0 }] }
          0 { uid := "r1", meta := [], deleted := false } [] =
        .error .noCurrentRevision :=
  ⟨by decide,
    (C3_supersede_no_current
      { emptyDB with
        items := [{ id := 0, uid := some "i0", encryptionKey := none,
                    version := 1, collectionId := none }],
        revisions := [{ id := 0, uid := "r0", meta := [], deleted := false,
                        current := none, itemId := 0 }] }
      0 { uid := "r1", meta := [], deleted := false } [] (by decide)).1⟩

/-- The chunk loop processes an appended list left to right: the second part
runs in the state the first part produced, and a failure in the first part is
the failure of the whole. -/
theorem resolveList_append :
    ∀ (xs : List ChunkElem) (db : DB) (itemId : Nat) (ys : List ChunkElem),
      resolveList db itemId (xs ++ ys) =
        match resolveList db itemId xs with
        | .error e => .error e
        | .ok (db1, objs) =>
          match resolveList db1 itemId ys with
          | .error e => .error e
          | .ok (db2, objs2) => .ok (db2, objs ++ objs2)
  | [], db, itemId, ys => by
      simp only [List.nil_append, resolveList]
      cases resolveList db itemId ys with
      | error e => rfl
      | ok q => rfl
  | x :: rest, db, itemId, ys => by
      simp only [List.cons_append, resolveList]
      cases h1 : resolveChunk db itemId x with
      | error e => rfl
      | ok p =>
        obtain ⟨db1, ch⟩ := p
        dsimp only
        simp only [List.append_eq]
        rw [resolveList_append rest db1 itemId ys]
        cases h2 : resolveList db1 itemId rest with
        | error e => rfl
        | ok q =>
          obtain ⟨db2, objs2⟩ := q
          dsimp only
          cases h3 : resolveList db2 itemId ys with
          | error e => rfl
          | ok r => rfl

/-- C6 counterexample: the list contains an inline element whose uid "X"
already names an existing chunk, yet processing fails with the
chunk-not-found error of the earlier dangling reference, not with the
duplicate-chunk error the claim states. -/
theorem C6_counterexample :
    (∃ c ∈ dupDb.chunks, c.uid = "X") ∧
      (∃ e ∈ dupChunks, e.uid = "X" ∧ e.content = some [2]) ∧
      process_revisions_for_item dupDb 0
          { uid := "r1", meta := [], deleted := false } dupChunks =
        .error .chunkNotFound :=
  ⟨by decide, by decide, by rfl⟩

/-- C6 as amended: a chunk list containing an inline element whose uid
already names an existing chunk always makes processing fail — with the
duplicate-chunk error whenever every earlier element resolves successfully —
and the committed state, including the stored bytes of the existing chunk,
is unchanged. -/
theorem C6_duplicate_chunk (db : DB) (itemId : Nat) (rd : RevisionData)
    (pre rest : List ChunkElem) (u : String) (bytes : List Nat)
    (hdup : ∃ c ∈ db.chunks, c.uid = u) :
    (∃ e, process_revisions_for_item db itemId rd
        (pre ++ { uid := u, content := some bytes } :: rest) = .error e) ∧
      (∀ dbp objs, resolveList db itemId pre = .ok (dbp, objs) →
        process_revisions_for_item db itemId rd
            (pre ++ { uid := u, content := some bytes } :: rest) =
          .error .duplicateChunk) ∧
      commit db (process_revisions_for_item db itemId rd
        (pre ++ { uid := u, content := some bytes } :: rest)) = db := by
  have key : ∀ dbp objs, resolveList db itemId pre = .ok (dbp, objs) →
      resolveList db itemId (pre ++ { uid := u, content := some bytes } :: rest) =
        .error .duplicateChunk := by
    intro dbp objs hpre
    rw [resolveList_append, hpre]
    dsimp only
    obtain ⟨⟨new, hchunks⟩, _⟩ := resolveList_spec pre db itemId dbp objs hpre
    have hany : dbp.chunks.any (fun ch => ch.uid = u) = true := by
      rw [hchunks, List.any_append]
      obtain ⟨c, hc, hcu⟩ := hdup
      have : db.chunks.any (fun ch => ch.uid = u) = true := by
        rw [List.any_eq_true]
        exact ⟨c, hc, by simp [hcu]⟩
      simp [this]
    rw [resolveList]
    rw [resolveChunk]
    dsimp only
    rw [if_pos hany]
  have fails : ∃ e, process_revisions_for_item db itemId rd
      (pre ++ { uid := u, content := some bytes } :: rest) = .error e := by
    cases hpre : resolveList db itemId pre with
    | error e =>
        refine ⟨e, ?_⟩
        rw [process_revisions_for_item, resolveList_append, hpre]
    | ok p =>
        obtain ⟨dbp, objs⟩ := p
        refine ⟨.duplicateChunk, ?_⟩
        rw [process_revisions_for_item, key dbp objs hpre]
  refine ⟨fails, ?_, ?_⟩
  · intro dbp objs hpre
    rw [process_revisions_for_item, key dbp objs hpre]
  · obtain ⟨e, he⟩ := fails
    rw [he]
    rfl

/-- Witness for C6 as amended: duplicating chunk "X" with an empty prefix. -/
theorem C6_duplicate_chunk_witness :
    (∃ c ∈ dupDb.chunks, c.uid = "X") ∧
      ((∃ e, process_revisions_for_item dupDb 0
          { uid := "r1", meta := [], deleted := false }
          ([] ++ { uid := "X", content := some [2] } :: []) = .error e) ∧
        (∀ dbp objs, resolveList dupDb 0 [] = .ok (dbp, objs) →
          process_revisions_for_item dupDb 0
              { uid := "r1", meta := [], deleted := false }
              ([] ++ { uid := "X", content := some [2] } :: []) =
            .error .duplicateChunk) ∧
        commit dupDb (process_revisions_for_item dupDb 0
          { uid := "r1", meta := [], deleted := false }
          ([] ++ { uid := "X", content := some [2] } :: [])) = dupDb) :=
  ⟨by decide,
    C6_duplicate_chunk dupDb 0 { uid := "r1", meta := [], deleted := false }
      [] [] "X" [2] (by decide)⟩

/-- C4: when any step of the collection-bootstrap transaction fails, no
collection, item, revision, chunk, chunk-reference, or membership row from
the call is visible in the committed state. -/
theorem C4_create_collection_atomic (db : DB) (cd : CollectionData)
    (key : List Nat) (rd : RevisionData) (chunks : List ChunkElem) (e : DBErr)
    (h : CollectionSerializer.create db cd key rd chunks = .error e) :
    commit db (CollectionSerializer.create db cd key rd chunks) = db ∧
      (commit db (CollectionSerializer.create db cd key rd chunks)).collections =
        db.collections ∧
      (commit db (CollectionSerializer.create db cd key rd chunks)).items =
        db.items ∧
      (commit db (CollectionSerializer.create db cd key rd chunks)).revisions =
        db.revisions ∧
      (commit db (CollectionSerializer.create db cd key rd chunks)).relations =
        db.relations ∧
      (commit db (CollectionSerializer.create db cd key rd chunks)).members =
        db.members := by
  rw [h]
  exact ⟨rfl, rfl, rfl, rfl, rfl, rfl⟩

/-- Witness for C4: bootstrap failing on a dangling chunk reference. -/
theorem C4_create_collection_atomic_witness :
    CollectionSerializer.create emptyDB { uid := "col", version := 1, owner := 7 }
        [9] { uid := "r1", meta := [], deleted := false }
        [{ uid := "nope", content := none }] = .error .chunkNotFound ∧
      commit emptyDB (CollectionSerializer.create emptyDB
        { uid := "col", version := 1, owner := 7 } [9]
        { uid := "r1", meta := [], deleted := false }
        [{ uid := "nope", content := none }]) = emptyDB :=
  ⟨by rfl,
    (C4_create_collection_atomic emptyDB { uid := "col", version := 1, owner := 7 }
      [9] { uid := "r1", meta := [], deleted := false }
      [{ uid := "nope", content := none }] .chunkNotFound (by rfl)).1⟩

/-- C5: a successful collection bootstrap yields a main item with null uid,
null encryption key and the collection's version, attached to the new
collection as mainItem, and an ADMIN membership row for the owner carrying
exactly the supplied encryption key. -/
theorem C5_create_collection_success (db : DB) (cd : CollectionData)
    (key : List Nat) (rd : RevisionData) (chunks : List ChunkElem) (db' : DB)
    (h : CollectionSerializer.create db cd key rd chunks = .ok db') :
    ∃ it ∈ db'.items,
      it.uid = none ∧ it.encryptionKey = none ∧ it.version = cd.version ∧
      (∃ coll ∈ db'.collections, coll.id = db.collections.length ∧
        coll.version = cd.version ∧ coll.mainItemId = some it.id) ∧
      (∃ m ∈ db'.members, m.collectionId = db.collections.length ∧
        m.userId = cd.owner ∧ m.accessLevel = AccessLevel.ADMIN ∧
        m.encryptionKey = key) := by
  unfold CollectionSerializer.create at h
  dsimp only at h
  cases hp : process_revisions_for_item
      { db with
        collections := db.collections ++
          [{ id := db.collections.length, uid := cd.uid, version := cd.version,
             owner := cd.owner, mainItemId := none }],
        items := db.items ++
          [{ id := db.items.length, uid := none, encryptionKey := none,
             version := cd.version, collectionId := some db.collections.length }] }
      db.items.length rd chunks with
  | error e =>
      rw [hp] at h
      exact absurd h (by simp)
  | ok db3 =>
      rw [hp] at h
      dsimp only at h
      obtain ⟨hrev, hrel, hch, hitems, hcolls, hmem⟩ :=
        process_spec _ _ _ _ _ hp
      injection h with h1
      subst h1
      refine ⟨{ id := db.items.length, uid := none, encryptionKey := none,
                version := cd.version, collectionId := some db.collections.length },
        ?_, rfl, rfl, rfl, ?_, ?_⟩
      · simp [hitems]
      · refine ⟨{ id := db.collections.length, uid := cd.uid, version := cd.version,
                  owner := cd.owner, mainItemId := some db.items.length }, ?_, rfl, rfl, rfl⟩
        simp only [hcolls, List.map_append]
        refine List.mem_append_right _ ?_
        simp
      · refine ⟨{ collectionId := db.collections.length, userId := cd.owner,
                  accessLevel := AccessLevel.ADMIN, encryptionKey := key },
          ?_, rfl, rfl, rfl, rfl⟩
        simp

/-- Witness for C5: a successful bootstrap on the empty database. -/
theorem C5_create_collection_success_witness :
    CollectionSerializer.create emptyDB { uid := "col", version := 2, owner := 7 }
        [9] { uid := "r1", meta := [5], deleted := false }
        [{ uid := "c1", content := some [3] }] = .ok bootDB ∧
      ∃ it ∈ bootDB.items,
        it.uid = none ∧ it.encryptionKey = none ∧ it.version = 2 ∧
        (∃ coll ∈ bootDB.collections, coll.id = 0 ∧ coll.version = 2 ∧
          coll.mainItemId = some it.id) ∧
        (∃ m ∈ bootDB.members, m.collectionId = 0 ∧ m.userId = 7 ∧
          m.accessLevel = AccessLevel.ADMIN ∧ m.encryptionKey = [9]) :=
  ⟨by rfl,
    C5_create_collection_success emptyDB { uid := "col", version := 2, owner := 7 }
      [9] { uid := "r1", meta := [5], deleted := false }
      [{ uid := "c1", content := some [3] }] bootDB (by rfl)⟩

/-- Updating the rows matching a key that occurs uniquely changes a countP by
exactly the difference at the matched row. -/
theorem countP_map_update {α : Type} (p : α → Bool) (f : α → Nat) (g : α → α) :
    ∀ (l : List α) (a : α), (l.map f).Nodup → a ∈ l →
      (l.map (fun x => if f x = f a then g x else x)).countP p +
          (if p a then 1 else 0) =
        l.countP p + (if p (g a) then 1 else 0)
  | [], a, _, ha => absurd ha (by simp)
  | x :: t, a, hnd, ha => by
      rw [List.map_cons, List.nodup_cons] at hnd
      rcases List.mem_cons.mp ha with rfl | hat
      · have ht : t.map (fun y => if f y = f a then g y else y) = t := by
          have hpt : ∀ y ∈ t, (if f y = f a then g y else y) = y := by
            intro y hy
            rw [if_neg]
            intro hfy
            exact hnd.1 (hfy ▸ List.mem_map_of_mem f hy)
          rw [List.map_congr_left hpt, List.map_id']
        simp only [List.map_cons, eq_self_iff_true, if_true, ht, List.countP_cons]
        omega
      · have hfx : f x ≠ f a := by
          intro hfy
          exact hnd.1 (hfy ▸ List.mem_map_of_mem f hat)
        have ih := countP_map_update p f g t a hnd.2 hat
        simp only [List.map_cons, if_neg hfx, List.countP_cons]
        omega

/-- Demoting a revision row preserves the primary keys of the table. -/
theorem demote_map_id (db : DB) (k : Nat) :
    (demoteRev db k).revisions.map Revision.id = db.revisions.map Revision.id := by
  unfold demoteRev
  rw [List.map_map]
  apply List.map_congr_left
  intro r _
  by_cases hr : r.id = k <;> simp [Function.comp, hr]

/-- The effect of a successful supersede: primary keys stay well formed, the
other tables are untouched, every item's number of current revisions is
preserved, and when the item had exactly one current revision the new current
revision is the freshly built one. -/
theorem supersede_effect (db : DB) (itemId : Nat) (rd : RevisionData)
    (chunks : List ChunkElem) (db' : DB) (hids : RevIdsOk db)
    (h : CollectionItemSerializer.update db itemId rd chunks = .ok db') :
    RevIdsOk db' ∧
      db'.items = db.items ∧ db'.collections = db.collections ∧
      db'.members = db.members ∧
      db'.revisions.length = db.revisions.length + 1 ∧
      (∀ j, currentCount db' j = currentCount db j) ∧
      (currentCount db itemId = 1 →
        firstCurrent db' itemId = some (builtRevision db itemId rd)) ∧
      (∀ r ∈ db'.revisions, r.itemId = itemId ∨
        ∃ r0 ∈ db.revisions, r.itemId = r0.itemId) ∧
      (∃ cur ∈ db.revisions, cur.itemId = itemId ∧ cur.current = some true) := by
  unfold CollectionItemSerializer.update at h
  cases hfc : firstCurrent db itemId with
  | none =>
      rw [hfc] at h
      exact absurd h (by simp)
  | some cur =>
      rw [hfc] at h
      dsimp only at h
      rw [firstCurrent] at hfc
      have hpcur := List.find?_some hfc
      simp only [decide_eq_true_eq] at hpcur
      obtain ⟨hcuri, hcurc⟩ := hpcur
      have hmem := List.mem_of_find?_eq_some hfc
      obtain ⟨hrev, hrel, hch, hitems, hcolls, hmems⟩ := process_spec _ _ _ _ _ h
      have hdlen : (demoteRev db cur.id).revisions.length = db.revisions.length := by
        simp [demoteRev]
      have hbuilt : builtRevision (demoteRev db cur.id) itemId rd =
          builtRevision db itemId rd := by
        simp [builtRevision, hdlen]
      have hnd : (db.revisions.map Revision.id).Nodup := by
        rw [hids]
        exact List.nodup_range _
      have hkey : ∀ p : Revision → Bool,
          ((demoteRev db cur.id).revisions).countP p + (if p cur then 1 else 0) =
            db.revisions.countP p +
              (if p { cur with current := none } then 1 else 0) := by
        intro p
        exact countP_map_update p Revision.id (fun r => { r with current := none })
          db.revisions cur hnd hmem
      have hlen' : db'.revisions.length = db.revisions.length + 1 := by
        rw [hrev]
        simp [hdlen]
      have hkeq : ∀ j, j = itemId →
          ((demoteRev db cur.id).revisions).countP
              (fun r => decide (r.itemId = j ∧ r.current = some true)) + 1 =
            db.revisions.countP
              (fun r => decide (r.itemId = j ∧ r.current = some true)) := by
        intro j hj
        subst hj
        have hk := hkey (fun r => decide (r.itemId = j ∧ r.current = some true))
        have hpc : (decide (cur.itemId = j ∧ cur.current = some true)) = true := by
          simp [hcuri, hcurc]
        rw [hpc] at hk
        have hnone : (decide ((({ cur with current := none } : Revision)).itemId = j ∧
            (({ cur with current := none } : Revision)).current = some true)) = false := by
          simp
        rw [hnone] at hk
        simpa using hk
      have hkne : ∀ j, j ≠ itemId →
          ((demoteRev db cur.id).revisions).countP
              (fun r => decide (r.itemId = j ∧ r.current = some true)) =
            db.revisions.countP
              (fun r => decide (r.itemId = j ∧ r.current = some true)) := by
        intro j hj
        have hk := hkey (fun r => decide (r.itemId = j ∧ r.current = some true))
        have hpc : (decide (cur.itemId = j ∧ cur.current = some true)) = false := by
          rw [decide_eq_false_iff_not]
          intro hc
          exact hj (hc.1 ▸ hcuri.symm ▸ rfl)
        rw [hpc] at hk
        have hnone : (decide ((({ cur with current := none } : Revision)).itemId = j ∧
            (({ cur with current := none } : Revision)).current = some true)) = false := by
          simp
        rw [hnone] at hk
        simpa using hk
      refine ⟨?_, hitems, hcolls, hmems, hlen', ?_, ?_, ?_, ⟨cur, hmem, hcuri, hcurc⟩⟩
      · rw [RevIdsOk, hrev, List.map_append, demote_map_id, hids]
        simp [builtRevision, hdlen, List.range_succ, List.length_append]
      · intro j
        rw [currentCount, hrev, List.countP_append, currentCount]
        by_cases hj : j = itemId
        · subst hj
          have hpnew : List.countP
              (fun r => decide (r.itemId = j ∧ r.current = some true))
              [builtRevision (demoteRev db cur.id) j rd] = 1 := by
            simp [builtRevision]
          rw [hpnew]
          have := hkeq j rfl
          omega
        · have hpnew : List.countP
              (fun r => decide (r.itemId = j ∧ r.current = some true))
              [builtRevision (demoteRev db cur.id) itemId rd] = 0 := by
            simp only [List.countP_cons, List.countP_nil]
            have : (decide ((builtRevision (demoteRev db cur.id) itemId rd).itemId = j ∧
                (builtRevision (demoteRev db cur.id) itemId rd).current = some true)) = false := by
              rw [decide_eq_false_iff_not]
              intro hc
              exact hj (by simpa [builtRevision] using hc.1.symm)
            rw [this]
            simp
          rw [hpnew]
          have := hkne j hj
          omega
      · intro hcnt
        rw [currentCount] at hcnt
        have hz := hkeq itemId rfl
        rw [hcnt] at hz
        have hzero : ((demoteRev db cur.id).revisions).countP
            (fun r => decide (r.itemId = itemId ∧ r.current = some true)) = 0 := by
          omega
        rw [firstCurrent, hrev, List.find?_append]
        have hfnone : List.find?
            (fun r => decide (r.itemId = itemId ∧ r.current = some true))
            (demoteRev db cur.id).revisions = none := by
          rw [List.find?_eq_none]
          intro x hx hpx
          have hpos : 0 < ((demoteRev db cur.id).revisions).countP
              (fun r => decide (r.itemId = itemId ∧ r.current = some true)) :=
            List.countP_pos_iff.mpr ⟨x, hx, hpx⟩
          omega
        rw [hfnone, Option.none_or, hbuilt]
        simp [builtRevision]
      · intro r hr
        rw [hrev] at hr
        rcases List.mem_append.mp hr with hrd | hrnew
        · unfold demoteRev at hrd
          simp only [List.mem_map] at hrd
          obtain ⟨r0, hr0, hr0eq⟩ := hrd
          right
          refine ⟨r0, hr0, ?_⟩
          subst hr0eq
          by_cases hid : r0.id = cur.id <;> simp [hid]
        · left
          rw [List.mem_singleton] at hrnew
          subst hrnew
          rfl

/-- The effect of a successful item create: the fresh item row is appended
and its first revision built. -/
theorem create_effect (db : DB) (d : ItemData) (rd : RevisionData)
    (chunks : List ChunkElem) (db' : DB)
    (h : CollectionItemSerializer.create db d rd chunks = .ok db') :
    db'.items = db.items ++
        [{ id := db.items.length, uid := d.uid, encryptionKey := d.encryptionKey,
           version := d.version, collectionId := d.collectionId }] ∧
      db'.revisions = db.revisions ++ [builtRevision db db.items.length rd] ∧
      db'.collections = db.collections ∧ db'.members = db.members := by
  unfold CollectionItemSerializer.create at h
  dsimp only at h
  obtain ⟨hrev, hrel, hch, hitems, hcolls, hmems⟩ := process_spec _ _ _ _ _ h
  exact ⟨hitems, hrev, hcolls, hmems⟩

/-- One successful operation preserves the item-revision-chain invariant. -/
theorem chainInv_applyOp (db db' : DB) (op : Op) (hinv : ChainInv db)
    (h : applyOp db op = .ok db') : ChainInv db' := by
  obtain ⟨hrevids, hitemids, hrevitems, hcur⟩ := hinv
  cases op with
  | createItem d rd chunks =>
      obtain ⟨hitems, hrev, hcolls, hmems⟩ := create_effect db d rd chunks db' h
      have hrevlen : db'.revisions.length = db.revisions.length + 1 := by
        rw [hrev]
        simp
      have hitemlen : db'.items.length = db.items.length + 1 := by
        rw [hitems]
        simp
      refine ⟨?_, ?_, ?_, ?_⟩
      · rw [RevIdsOk, hrev, List.map_append, hrevids]
        simp [builtRevision, List.length_append, List.range_succ]
      · rw [ItemIdsOk, hitems, List.map_append, hitemids]
        simp [List.length_append, List.range_succ]
      · intro r hr
        rw [hrev] at hr
        rw [hitemlen]
        rcases List.mem_append.mp hr with hr0 | hr1
        · exact Nat.lt_succ_of_lt (hrevitems r hr0)
        · rw [List.mem_singleton] at hr1
          subst hr1
          simp [builtRevision]
      · intro it hit
        rw [hitems] at hit
        have hcount : ∀ j, currentCount db' j = currentCount db j +
            (if j = db.items.length then 1 else 0) := by
          intro j
          rw [currentCount, hrev, List.countP_append, currentCount]
          congr 1
          by_cases hj : j = db.items.length
          · subst hj
            simp [builtRevision]
          · simp only [List.countP_cons, List.countP_nil]
            have : (decide ((builtRevision db db.items.length rd).itemId = j ∧
                (builtRevision db db.items.length rd).current = some true)) = false := by
              rw [decide_eq_false_iff_not]
              intro hc
              exact hj (by simpa [builtRevision] using hc.1.symm)
            simp [this, hj]
        rcases List.mem_append.mp hit with hold | hnew
        · have hlt : it.id < db.items.length := by
            have : it.id ∈ db.items.map Item.id := List.mem_map_of_mem Item.id hold
            rw [hitemids] at this
            exact List.mem_range.mp this
          rw [hcount it.id, if_neg (Nat.ne_of_lt hlt)]
          simpa using hcur it hold
        · rw [List.mem_singleton] at hnew
          subst hnew
          have hzero : currentCount db db.items.length = 0 := by
            rw [currentCount, List.countP_eq_zero]
            intro r hr
            rw [decide_eq_true_eq]
            intro hc
            exact absurd (hc.1 ▸ hrevitems r hr) (by simp)
          rw [hcount, if_pos rfl, hzero]
  | updateItem itemId rd chunks =>
      obtain ⟨hids', hitems, hcolls, hmems, hlen, hcounts, _, hback, cur, hcurmem,
        hcuri, hcurc⟩ := supersede_effect db itemId rd chunks db' hrevids h
      refine ⟨hids', ?_, ?_, ?_⟩
      · rw [ItemIdsOk, hitems]
        exact hitemids
      · intro r hr
        rw [hitems]
        rcases hback r hr with hri | ⟨r0, hr0, hr0eq⟩
        · rw [hri, ← hcuri]
          exact hrevitems cur hcurmem
        · rw [hr0eq]
          exact hrevitems r0 hr0
      · intro it hit
        rw [hitems] at hit
        rw [hcounts it.id]
        exact hcur it hit

/-- Running a sequence of individually successful operations preserves the
item-revision-chain invariant. -/
theorem chainInv_runOps :
    ∀ (ops : List Op) (db db' : DB), ChainInv db →
      runOps db ops = some db' → ChainInv db'
  | [], db, db', hinv, h => by
      unfold runOps at h
      injection h with h1
      exact h1 ▸ hinv
  | op :: rest, db, db', hinv, h => by
      unfold runOps at h
      cases h1 : applyOp db op with
      | error e =>
          rw [h1] at h
          exact absurd h (by simp)
      | ok db1 =>
          rw [h1] at h
          dsimp only at h
          exact chainInv_runOps rest db1 db' (chainInv_applyOp db db1 op hinv h1) h

/-- The empty database satisfies the chain invariant. -/
theorem chainInv_emptyDB : ChainInv emptyDB := by
  refine ⟨rfl, rfl, ?_, ?_⟩ <;> intro x hx <;> exact absurd hx (by simp [emptyDB])

/-- C1: after any sequence of item-create and supersede operations that each
individually succeed and commit, every item has exactly one revision with
current = true. -/
theorem C1_single_current (ops : List Op) (db' : DB)
    (h : runOps emptyDB ops = some db') :
    ∀ it ∈ db'.items, currentCount db' it.id = 1 :=
  (chainInv_runOps ops emptyDB db' chainInv_emptyDB h).2.2.2

/-- Witness for C1: a create followed by a supersede leaves exactly one
current revision. -/
theorem C1_single_current_witness :
    runOps emptyDB c1Ops = some c1DB ∧
      ∀ it ∈ c1DB.items, currentCount c1DB it.id = 1 :=
  ⟨by rfl, C1_single_current c1Ops c1DB (by rfl)⟩

/-- In a table whose ids increase along the rows, the last row carries the
greatest id. -/
theorem getLast_max_id :
    ∀ l : List Revision, l.Pairwise (fun a b => a.id < b.id) → l ≠ [] →
      ∃ r, l.getLast? = some r ∧ r ∈ l ∧ ∀ x ∈ l, x.id ≤ r.id
  | [], _, hne => absurd rfl hne
  | [a], _, _ => ⟨a, rfl, by simp, by simp⟩
  | a :: b :: t, hp, _ => by
      obtain ⟨r, hlast, hrmem, hmax⟩ :=
        getLast_max_id (b :: t) (List.Pairwise.sublist (by simp) hp) (by simp)
      refine ⟨r, by rw [List.getLast?_cons_cons]; exact hlast,
        List.mem_cons_of_mem a hrmem, ?_⟩
      intro x hx
      rcases List.mem_cons.mp hx with rfl | hxt
      · have := (List.pairwise_cons.mp hp).1 r hrmem
        omega
      · exact hmax x hxt

/-- C10: the ctag accessor returns none for a collection without revisions
and the uid of the most recently created (greatest primary key) revision of
the collection's items otherwise. -/
theorem C10_get_ctag (db : DB) (collId : Nat) (hids : RevIdsOk db) :
    (collectionRevisions db collId = [] →
        CollectionSerializer.get_ctag db collId = none) ∧
      (collectionRevisions db collId ≠ [] →
        ∃ r, CollectionSerializer.get_ctag db collId = some r.uid ∧
          r ∈ collectionRevisions db collId ∧
          ∀ x ∈ collectionRevisions db collId, x.id ≤ r.id) := by
  constructor
  · intro hempty
    rw [CollectionSerializer.get_ctag, hempty]
    rfl
  · intro hne
    have hpall : db.revisions.Pairwise (fun a b => a.id < b.id) := by
      have := List.pairwise_lt_range db.revisions.length
      rw [← hids, List.pairwise_map] at this
      exact this
    have hp : (collectionRevisions db collId).Pairwise (fun a b => a.id < b.id) :=
      List.Pairwise.filter _ hpall
    obtain ⟨r, hlast, hrmem, hmax⟩ := getLast_max_id _ hp hne
    refine ⟨r, ?_, hrmem, hmax⟩
    rw [CollectionSerializer.get_ctag, hlast]

/-- Witness for C10: the ctag of the witness collection is the uid of its
latest revision, and an empty collection yields none. -/
theorem C10_get_ctag_witness :
    RevIdsOk ctagDB ∧
      ((collectionRevisions ctagDB 0 = [] →
          CollectionSerializer.get_ctag ctagDB 0 = none) ∧
        (collectionRevisions ctagDB 0 ≠ [] →
          ∃ r, CollectionSerializer.get_ctag ctagDB 0 = some r.uid ∧
            r ∈ collectionRevisions ctagDB 0 ∧
            ∀ x ∈ collectionRevisions ctagDB 0, x.id ≤ r.id)) :=
  ⟨by unfold RevIdsOk; rfl, C10_get_ctag ctagDB 0 (by unfold RevIdsOk; rfl)⟩

/-- An item with a positive number of current revisions has a first current
revision row. -/
theorem firstCurrent_isSome_of_count (db : DB) (itemId : Nat)
    (h : 0 < currentCount db itemId) : ∃ cur, firstCurrent db itemId = some cur := by
  rw [currentCount, List.countP_pos_iff] at h
  rw [firstCurrent, ← Option.isSome_iff_exists, List.find?_isSome]
  exact h

/-- A locked read followed by the in-lock writes is exactly a serial
CollectionItemSerializer.update call. -/
theorem update_of_steps (db db1 : DB) (itemId : Nat) (p : ThreadProg) (cur : Revision)
    (hfc : firstCurrent db itemId = some cur)
    (hp : process_revisions_for_item (demoteRev db cur.id) itemId p.rd p.chunks =
      .ok db1) :
    CollectionItemSerializer.update db itemId p.rd p.chunks = .ok db1 := by
  rw [CollectionItemSerializer.update, hfc]
  exact hp

/-- C2: two concurrent supersede transactions on the same item, started from
the same single current revision, can only complete serialized by the row
lock: the schedule is one of the two serial orders, afterwards exactly one
revision of the item is current — never zero, never two — and it is the one
written by the later-committing transaction. -/
theorem C2_concurrent_supersede (db : DB) (itemId : Nat) (p0 p1 : ThreadProg)
    (sched : List Bool) (s' : Sys)
    (hids : RevIdsOk db) (hcnt : currentCount db itemId = 1)
    (hrun : runSched itemId p0 p1 (initSys db) sched = some s')
    (h0 : s'.ph0 = .done) (h1 : s'.ph1 = .done) :
    currentCount s'.db itemId = 1 ∧
      ((sched = [false, false, false, true, true, true] ∧
          (firstCurrent s'.db itemId).map Revision.uid = some p1.rd.uid) ∨
        (sched = [true, true, true, false, false, false] ∧
          (firstCurrent s'.db itemId).map Revision.uid = some p0.rd.uid)) := by
  obtain ⟨cur0, hfc0⟩ := firstCurrent_isSome_of_count db itemId (by omega)
  rcases sched with _ | ⟨b1, sched1⟩
  · rw [runSched] at hrun
    injection hrun with hs
    rw [← hs] at h0
    exact absurd h0 (by simp [initSys])
  cases b1 with
  | false =>
    rw [runSched] at hrun
    simp only [sstep, initSys, tstep, if_true] at hrun
    rw [hfc0] at hrun
    dsimp only at hrun
    rcases sched1 with _ | ⟨b2, sched2⟩
    · rw [runSched] at hrun
      injection hrun with hs
      rw [← hs] at h0
      exact absurd h0 (by simp)
    cases b2 with
    | true =>
      rw [runSched] at hrun
      simp [sstep, tstep] at hrun
    | false =>
      rw [runSched] at hrun
      simp only [sstep, tstep] at hrun
      cases hp0 : process_revisions_for_item (demoteRev db cur0.id) itemId
          p0.rd p0.chunks with
      | error e =>
        rw [hp0] at hrun
        simp at hrun
      | ok db1 =>
        rw [hp0] at hrun
        dsimp only at hrun
        have hupd0 := update_of_steps db db1 itemId p0 cur0 hfc0 hp0
        obtain ⟨hids1, _, _, _, _, hcounts0, hfc1some, _, _⟩ :=
          supersede_effect db itemId p0.rd p0.chunks db1 hids hupd0
        have hcnt1 : currentCount db1 itemId = 1 := by
          rw [hcounts0]
          exact hcnt
        have hfc1 := hfc1some hcnt
        rcases sched2 with _ | ⟨b3, sched3⟩
        · rw [runSched] at hrun
          injection hrun with hs
          rw [← hs] at h0
          exact absurd h0 (by simp)
        cases b3 with
        | true =>
          rw [runSched] at hrun
          simp [sstep, tstep] at hrun
        | false =>
          rw [runSched] at hrun
          simp only [sstep, tstep] at hrun
          rcases sched3 with _ | ⟨b4, sched4⟩
          · rw [runSched] at hrun
            injection hrun with hs
            rw [← hs] at h1
            exact absurd h1 (by simp)
          cases b4 with
          | false =>
            rw [runSched] at hrun
            simp [sstep, tstep] at hrun
          | true =>
            rw [runSched] at hrun
            simp only [sstep, tstep, if_true] at hrun
            rw [hfc1] at hrun
            dsimp only at hrun
            rcases sched4 with _ | ⟨b5, sched5⟩
            · rw [runSched] at hrun
              injection hrun with hs
              rw [← hs] at h1
              exact absurd h1 (by simp)
            cases b5 with
            | false =>
              rw [runSched] at hrun
              simp [sstep, tstep] at hrun
            | true =>
              rw [runSched] at hrun
              simp only [sstep, tstep] at hrun
              cases hp1 : process_revisions_for_item
                  (demoteRev db1 (builtRevision db itemId p0.rd).id) itemId
                  p1.rd p1.chunks with
              | error e =>
                rw [hp1] at hrun
                simp at hrun
              | ok db2 =>
                rw [hp1] at hrun
                dsimp only at hrun
                have hupd1 := update_of_steps db1 db2 itemId p1 _ hfc1 hp1
                obtain ⟨_, _, _, _, _, hcounts1, hfc2some, _, _⟩ :=
                  supersede_effect db1 itemId p1.rd p1.chunks db2 hids1 hupd1
                have hcnt2 : currentCount db2 itemId = 1 := by
                  rw [hcounts1]
                  exact hcnt1
                have hfc2 := hfc2some hcnt1
                rcases sched5 with _ | ⟨b6, sched6⟩
                · rw [runSched] at hrun
                  injection hrun with hs
                  rw [← hs] at h1
                  exact absurd h1 (by simp)
                cases b6 with
                | false =>
                  rw [runSched] at hrun
                  simp [sstep, tstep] at hrun
                | true =>
                  rw [runSched] at hrun
                  simp only [sstep, tstep] at hrun
                  rcases sched6 with _ | ⟨b7, sched7⟩
                  · rw [runSched] at hrun
                    injection hrun with hs
                    rw [← hs]
                    refine ⟨hcnt2, Or.inl ⟨rfl, ?_⟩⟩
                    rw [hfc2]
                    simp [builtRevision]
                  · rw [runSched] at hrun
                    cases b7 <;> simp [sstep, tstep] at hrun
  | true =>
    rw [runSched] at hrun
    simp only [sstep, initSys, tstep, if_true] at hrun
    rw [hfc0] at hrun
    dsimp only at hrun
    rcases sched1 with _ | ⟨b2, sched2⟩
    · rw [runSched] at hrun
      injection hrun with hs
      rw [← hs] at h1
      exact absurd h1 (by simp)
    cases b2 with
    | false =>
      rw [runSched] at hrun
      simp [sstep, tstep] at hrun
    | true =>
      rw [runSched] at hrun
      simp only [sstep, tstep] at hrun
      cases hp0 : process_revisions_for_item (demoteRev db cur0.id) itemId
          p1.rd p1.chunks with
      | error e =>
        rw [hp0] at hrun
        simp at hrun
      | ok db1 =>
        rw [hp0] at hrun
        dsimp only at hrun
        have hupd0 := update_of_steps db db1 itemId p1 cur0 hfc0 hp0
        obtain ⟨hids1, _, _, _, _, hcounts0, hfc1some, _, _⟩ :=
          supersede_effect db itemId p1.rd p1.chunks db1 hids hupd0
        have hcnt1 : currentCount db1 itemId = 1 := by
          rw [hcounts0]
          exact hcnt
        have hfc1 := hfc1some hcnt
        rcases sched2 with _ | ⟨b3, sched3⟩
        · rw [runSched] at hrun
          injection hrun with hs
          rw [← hs] at h1
          exact absurd h1 (by simp)
        cases b3 with
        | false =>
          rw [runSched] at hrun
          simp [sstep, tstep] at hrun
        | true =>
          rw [runSched] at hrun
          simp only [sstep, tstep] at hrun
          rcases sched3 with _ | ⟨b4, sched4⟩
          · rw [runSched] at hrun
            injection hrun with hs
            rw [← hs] at h0
            exact absurd h0 (by simp)
          cases b4 with
          | true =>
            rw [runSched] at hrun
            simp [sstep, tstep] at hrun
          | false =>
            rw [runSched] at hrun
            simp only [sstep, tstep, if_true] at hrun
            rw [hfc1] at hrun
            dsimp only at hrun
            rcases sched4 with _ | ⟨b5, sched5⟩
            · rw [runSched] at hrun
              injection hrun with hs
              rw [← hs] at h0
              exact absurd h0 (by simp)
            cases b5 with
            | true =>
              rw [runSched] at hrun
              simp [sstep, tstep] at hrun
            | false =>
              rw [runSched] at hrun
              simp only [sstep, tstep] at hrun
              cases hp1 : process_revisions_for_item
                  (demoteRev db1 (builtRevision db itemId p1.rd).id) itemId
                  p0.rd p0.chunks with
              | error e =>
                rw [hp1] at hrun
                simp at hrun
              | ok db2 =>
                rw [hp1] at hrun
                dsimp only at hrun
                have hupd1 := update_of_steps db1 db2 itemId p0 _ hfc1 hp1
                obtain ⟨_, _, _, _, _, hcounts1, hfc2some, _, _⟩ :=
                  supersede_effect db1 itemId p0.rd p0.chunks db2 hids1 hupd1
                have hcnt2 : currentCount db2 itemId = 1 := by
                  rw [hcounts1]
                  exact hcnt1
                have hfc2 := hfc2some hcnt1
                rcases sched5 with _ | ⟨b6, sched6⟩
                · rw [runSched] at hrun
                  injection hrun with hs
                  rw [← hs] at h0
                  exact absurd h0 (by simp)
                cases b6 with
                | true =>
                  rw [runSched] at hrun
                  simp [sstep, tstep] at hrun
                | false =>
                  rw [runSched] at hrun
                  simp only [sstep, tstep] at hrun
                  rcases sched6 with _ | ⟨b7, sched7⟩
                  · rw [runSched] at hrun
                    injection hrun with hs
                    rw [← hs]
                    refine ⟨hcnt2, Or.inr ⟨rfl, ?_⟩⟩
                    rw [hfc2]
                    simp [builtRevision]
                  · rw [runSched] at hrun
                    cases b7 <;> simp [sstep, tstep] at hrun

/-- Witness for C2: the serial schedule where transaction 0 commits first and
transaction 1 second leaves exactly the revision of transaction 1 current. -/
theorem C2_concurrent_supersede_witness :
    RevIdsOk raceDB ∧ currentCount raceDB 0 = 1 ∧
      runSched 0 ⟨⟨"a1", [], false⟩, []⟩ ⟨⟨"b1", [], false⟩, []⟩ (initSys raceDB)
        [false, false, false, true, true, true] = some raceFinal ∧
      raceFinal.ph0 = .done ∧ raceFinal.ph1 = .done ∧
      (currentCount raceFinal.db 0 = 1 ∧
        (([false, false, false, true, true, true] =
            [false, false, false, true, true, true] ∧
          (firstCurrent raceFinal.db 0).map Revision.uid = some "b1") ∨
         ([false, false, false, true, true, true] =
            [true, true, true, false, false, false] ∧
          (firstCurrent raceFinal.db 0).map Revision.uid = some "a1"))) :=
  ⟨by unfold RevIdsOk; rfl, by decide, by rfl, rfl, rfl,
    C2_concurrent_supersede raceDB 0 ⟨⟨"a1", [], false⟩, []⟩ ⟨⟨"b1", [], false⟩, []⟩
      [false, false, false, true, true, true] raceFinal
      (by unfold RevIdsOk; rfl) (by decide) (by rfl) rfl rfl⟩
